import Mathlib

/-!
Verification of the SubscriptionBot resumable feed-ingestion engine.

Shallow embedding of the ingestion core of `src/modules/base.py`
(`APIProcess`, `XMLProcess`) and its consumers (`src/modules/feed.py`,
`src/modules/comments.py`).  Identifiers are modelled as lists of
characters where their string structure matters (the codec, the cursor
resolution regexes) and as opaque strings elsewhere; the mock feed
transport is a finite script of responses.
-/

set_option autoImplicit false

namespace SubscriptionBot

/-! ### Entry records

The dicts built by `XMLProcess._query_feed` from each `atom:entry` element. -/

structure Author where
  name : String
  uri : String
deriving Repr, DecidableEq

structure Entry where
  author : Author
  category : List (String × String)
  content : String
  fullId : String
  link : String
  /-- calendar day number of the UTC-normalized `updated` timestamp -/
  updatedDay : Int
  /-- seconds of day of the UTC-normalized `updated` timestamp -/
  updatedSecs : Nat
  title : String
deriving Repr, DecidableEq

/-! ### Identifier codec (`APIProcess._to_short_id` / `_to_full_id`)

Full ids are kind-prefixed base36 strings such as `t3_abc123`; the codec
works on raw characters, so we embed ids as `List Char`. -/

/-- Characters allowed by `APIProcess.base36_pattern = '[0-9a-z]+'`. -/
def isBase36Char (c : Char) : Bool :=
  (decide ('0' ≤ c) && decide (c ≤ '9')) || (decide ('a' ≤ c) && decide (c ≤ 'z'))

/-- A valid short id: a non-empty run of base36 characters. -/
def isBase36 (s : List Char) : Bool :=
  !s.isEmpty && s.all isBase36Char

/-- Python `str.split('_')` on the characters of a string. -/
def splitUnderscore : List Char → List (List Char)
  | [] => [[]]
  | c :: cs =>
    match splitUnderscore cs with
    | [] => [[]]
    | r :: rs => if c = '_' then [] :: r :: rs else (c :: r) :: rs

/-- Model of `APIProcess._to_short_id`: `full_id.split('_').pop()`, the last
underscore-delimited segment. -/
def toShortId (fullId : List Char) : List Char :=
  (splitUnderscore fullId).getLastD []

/-- Model of `APIProcess._to_full_id`: prepend the kind's registered marker,
`f'{pfx}_{short_id}'`. -/
def toFullId (pfx shortId : List Char) : List Char :=
  pfx ++ '_' :: shortId

theorem splitUnderscore_ne_nil (s : List Char) : splitUnderscore s ≠ [] := by
  cases s with
  | nil => simp [splitUnderscore]
  | cons c cs =>
    simp only [splitUnderscore]
    cases splitUnderscore cs with
    | nil => simp
    | cons r rs =>
      by_cases h : c = '_' <;> simp [h]

theorem splitUnderscore_of_not_mem (s : List Char) (h : '_' ∉ s) :
    splitUnderscore s = [s] := by
  induction s with
  | nil => rfl
  | cons c cs ih =>
    simp only [List.mem_cons, not_or] at h
    simp only [splitUnderscore, ih h.2]
    have hc : ¬ c = '_' := fun hc => h.1 hc.symm
    simp [hc]

theorem splitUnderscore_append (p s : List Char) (hp : '_' ∉ p) :
    splitUnderscore (p ++ '_' :: s) = p :: splitUnderscore s := by
  induction p with
  | nil =>
    simp only [List.nil_append, splitUnderscore]
    cases hs : splitUnderscore s with
    | nil => exact absurd hs (splitUnderscore_ne_nil s)
    | cons r rs => simp
  | cons c p ih =>
    simp only [List.mem_cons, not_or] at hp
    have hc : ¬ c = '_' := fun hc => hp.1 hc.symm
    simp only [List.cons_append, splitUnderscore, List.append_eq]
    rw [ih hp.2]
    simp [hc]

theorem not_underscore_of_base36 (s : List Char) (h : isBase36 s = true) :
    '_' ∉ s := by
  intro hmem
  simp only [isBase36, Bool.and_eq_true, List.all_eq_true] at h
  have := h.2 '_' hmem
  simp [isBase36Char] at this

/-- C7: for every kind marker (underscore-free, as all registered kind
markers are) and every valid base36 short id, decoding after encoding gives
back the short id, and re-encoding a well-formed full id with its own kind
gives back the full id: the codec round-trips in both directions. -/
theorem codec_roundtrip (pfx s : List Char) (hp : '_' ∉ pfx)
    (hs : isBase36 s = true) :
    toShortId (toFullId pfx s) = s ∧
      toFullId pfx (toShortId (toFullId pfx s)) = toFullId pfx s := by
  have hsplit : splitUnderscore (pfx ++ '_' :: s) = pfx :: splitUnderscore s :=
    splitUnderscore_append pfx s hp
  have hshort : toShortId (toFullId pfx s) = s := by
    simp [toShortId, toFullId, hsplit,
      splitUnderscore_of_not_mem s (not_underscore_of_base36 s hs)]
  exact ⟨hshort, by rw [hshort]⟩

/-- Witness for C7 at the submission kind marker `t3` and short id `abc123`. -/
theorem codec_roundtrip_witness :
    toShortId (toFullId ['t', '3'] ['a', 'b', 'c', '1', '2', '3'])
        = ['a', 'b', 'c', '1', '2', '3'] ∧
      toFullId ['t', '3']
          (toShortId (toFullId ['t', '3'] ['a', 'b', 'c', '1', '2', '3']))
        = toFullId ['t', '3'] ['a', 'b', 'c', '1', '2', '3'] :=
  codec_roundtrip ['t', '3'] ['a', 'b', 'c', '1', '2', '3']
    (by decide) (by decide)

/-! ### Cursor resolution (`XMLProcess.iter_entries`, lines 201-227)

The if/elif chain executed once, before the streaming loop.  `stored`
models the kv_store row fetched for the stream key; `idFromUrl` models the
external `kind_class.id_from_url`, returning `none` where it would raise
`ValueError`. -/

/-- Python `re.fullmatch(self.kind + '_' + self.base36_pattern, after)`:
`after` is exactly the kind marker, an underscore, and a non-empty base36
run.  Registered kind markers (`t1`, `t3`, ...) contain no regex
metacharacters, so the regex matches exactly this shape. -/
def matchesFullId (kind after : List Char) : Bool :=
  decide (after.take (kind.length + 1) = kind ++ ['_']) &&
    isBase36 (after.drop (kind.length + 1))

inductive Resolution where
  /-- Outcome where `get_last_entry()` is called: the newest item becomes the baseline. -/
  | newestBaseline
  /-- Outcome where `_after_full_id` is set to this id directly. -/
  | cursor (fullId : List Char)
  /-- Outcome where `kind_class.id_from_url` raised `ValueError`. -/
  | invalid
deriving Repr, DecidableEq

/-- The cursor-resolution branch of `XMLProcess.iter_entries`. -/
def resolveCursor (kind : List Char) (idFromUrl : List Char → Option (List Char))
    (after : Option (List Char)) (reset : Bool)
    (stored : Option (List Char)) : Resolution :=
  if reset then .newestBaseline
  else
    match after with
    | none =>
      match stored with
      | some v => .cursor v
      | none => .newestBaseline
    | some a =>
      if matchesFullId kind a then .cursor a
      else if isBase36 a then .cursor (kind ++ '_' :: a)
      else
        match idFromUrl a with
        | some sid => .cursor (kind ++ '_' :: sid)
        | none => .invalid

/-- C2 counterexample: the claim says an explicit caller-supplied `after`
wins over the reset flag, but with `after = "t1_a"` and `reset = true`
(and a persisted cursor `"t1_z"`) the code fetches the newest item as
baseline and ignores `after`. -/
theorem resolveCursor_reset_beats_after :
    resolveCursor ['t', '1'] (fun _ => none)
        (some ['t', '1', '_', 'a']) true (some ['t', '1', '_', 'z'])
      = .newestBaseline ∧
    resolveCursor ['t', '1'] (fun _ => none)
        (some ['t', '1', '_', 'a']) true (some ['t', '1', '_', 'z'])
      ≠ .cursor ['t', '1', '_', 'a'] := by
  constructor
  · rfl
  · intro h
    simp [resolveCursor] at h

/-- C2 amended: resolution priority is (1) reset flag — newest item as
baseline, ignoring both an explicit `after` and the persisted cursor;
(2) explicit `after`, whatever its form — the result never depends on the
persisted cursor, and each of the three forms resolves as the code's
branch prescribes (a full id used as-is, a bare base36 id prefixed with
the stream kind, any other string handed to the URL extractor, whose
`ValueError` is fatal); (3) persisted cursor; (4) newest item as
baseline. -/
theorem resolveCursor_precedence (kind : List Char)
    (f : List Char → Option (List Char)) (a : List Char)
    (stored stored2 : Option (List Char)) (v : List Char) :
    resolveCursor kind f (some a) true stored = .newestBaseline ∧
    resolveCursor kind f none true stored = .newestBaseline ∧
    resolveCursor kind f (some a) false stored
      = resolveCursor kind f (some a) false stored2 ∧
    (matchesFullId kind a = true →
      resolveCursor kind f (some a) false stored = .cursor a) ∧
    (matchesFullId kind a = false → isBase36 a = true →
      resolveCursor kind f (some a) false stored = .cursor (kind ++ '_' :: a)) ∧
    (matchesFullId kind a = false → isBase36 a = false →
      resolveCursor kind f (some a) false stored =
        (match f a with
          | some sid => .cursor (kind ++ '_' :: sid)
          | none => .invalid)) ∧
    resolveCursor kind f none false (some v) = .cursor v ∧
    resolveCursor kind f none false none = .newestBaseline := by
  refine ⟨rfl, rfl, rfl, fun h1 => ?_, fun h1 h2 => ?_, fun h1 h2 => ?_,
    rfl, rfl⟩
  · simp [resolveCursor, h1]
  · simp [resolveCursor, h1, h2]
  · simp [resolveCursor, h1, h2]

/-- Witness for C2's amended theorem at the comment kind `t1`, exercising
all three explicit-`after` forms against a populated persisted cursor. -/
theorem resolveCursor_precedence_witness :
    (matchesFullId ['t', '1'] ['t', '1', '_', 'a'] = true ∧
      resolveCursor ['t', '1'] (fun _ => none) (some ['t', '1', '_', 'a'])
        false (some ['t', '1', '_', 'z']) = .cursor ['t', '1', '_', 'a']) ∧
    (matchesFullId ['t', '1'] ['a', 'b'] = false ∧ isBase36 ['a', 'b'] = true ∧
      resolveCursor ['t', '1'] (fun _ => none) (some ['a', 'b'])
        false (some ['t', '1', '_', 'z']) = .cursor ['t', '1', '_', 'a', 'b']) ∧
    (matchesFullId ['t', '1'] ['x', ':'] = false ∧ isBase36 ['x', ':'] = false ∧
      resolveCursor ['t', '1'] (fun _ => some ['q', 'q']) (some ['x', ':'])
        false (some ['t', '1', '_', 'z']) = .cursor ['t', '1', '_', 'q', 'q']) :=
  ⟨⟨by decide,
      (resolveCursor_precedence ['t', '1'] (fun _ => none) ['t', '1', '_', 'a']
        (some ['t', '1', '_', 'z']) none ['x']).2.2.2.1 (by decide)⟩,
    ⟨by decide, by decide,
      (resolveCursor_precedence ['t', '1'] (fun _ => none) ['a', 'b']
        (some ['t', '1', '_', 'z']) none ['x']).2.2.2.2.1
        (by decide) (by decide)⟩,
    ⟨by decide, by decide,
      (resolveCursor_precedence ['t', '1'] (fun _ => some ['q', 'q']) ['x', ':']
        (some ['t', '1', '_', 'z']) none ['x']).2.2.2.2.2.1
        (by decide) (by decide)⟩⟩

/-! ### The poller fetch loop (`XMLProcess._query_feed`, lines 126-194)

Each HTTP response is classified the way the code classifies it:
`response.text.startswith('<!doctype html>')`, or `ET.fromstring` raising
`ParseError`, or a well-formed document whose `atom:entry` elements decode
to a (possibly empty) newest-first list.  The transport is a finite script
of such responses; the real loop polls forever, so running off the end of
the script is a distinguished outcome of the model. -/

inductive FeedResponse where
  /-- Response whose `response.text` starts with `'<!doctype html>'`. -/
  | htmlDoctype
  /-- any other payload that is not well-formed XML: `ET.fromstring` raises. -/
  | malformedXml
  /-- well-formed document; decoded entries, newest-first. -/
  | feedPage (entries : List Entry)
deriving Repr, DecidableEq

inductive QueryOutcome where
  /-- the loop broke out and returned `result.reverse`: oldest-first entries. -/
  | ok (entries : List Entry)
  /-- an uncaught `xml.etree.ElementTree.ParseError` propagates. -/
  | parseError
  /-- the finite mock script ran out (the real loop would keep polling). -/
  | outOfResponses
deriving Repr, DecidableEq

/-- The `while True` fetch loop of `_query_feed`.  `delay` is the current
backoff delay (`delay, max_delay = 15, 120`; `delay = min(2 * delay,
max_delay)` after an absorbed response).  Returns the delay in effect for
each issued request, and the outcome. -/
def queryFeedLoop (delay : Nat) : List FeedResponse → List Nat × QueryOutcome
  | [] => ([], .outOfResponses)
  | r :: rs =>
    match r with
    | .htmlDoctype =>
      let next := queryFeedLoop (min (2 * delay) 120) rs
      (delay :: next.1, next.2)
    | .malformedXml => ([delay], .parseError)
    | .feedPage entries =>
      if entries.isEmpty then
        let next := queryFeedLoop (min (2 * delay) 120) rs
        (delay :: next.1, next.2)
      else ([delay], .ok entries.reverse)

/-- Model of `XMLProcess._query_feed`: every call starts at the base delay 15. -/
def queryFeed (responses : List FeedResponse) : List Nat × QueryOutcome :=
  queryFeedLoop 15 responses

/-- The pre-request wait of `_query_feed`: the remaining time until
`self._last_timestamp + timedelta(seconds=delay)`, slept only when
positive; no wait before the first request of the process. -/
def waitSeconds (lastTimestamp : Option Int) (now : Int) (delay : Int) : Int :=
  match lastTimestamp with
  | none => 0
  | some l => max (l + delay - now) 0

/-- Model of `XMLProcess.get_last_entry`: query with `limit=1` and keep
`entries[0]['id']`; `none` when the loop did not produce a page. -/
def getLastEntry (responses : List FeedResponse) : Option String :=
  match queryFeed responses with
  | (_, .ok entries) => entries.head?.map Entry.fullId
  | _ => none

/-- Sample decoded entries used for concrete runs. -/
def entryA : Entry :=
  { author := { name := "/u/alice", uri := "https://www.reddit.com/user/alice" }
    category := [("term", "pics")]
    content := "first post"
    fullId := "t1_abc123"
    link := "https://www.reddit.com/r/pics/comments/x/a/"
    updatedDay := 20000
    updatedSecs := 3600
    title := "hello" }

def entryB : Entry :=
  { author := { name := "/u/bob", uri := "https://www.reddit.com/user/bob" }
    category := [("term", "pics")]
    content := "second post"
    fullId := "t1_def456"
    link := "https://www.reddit.com/r/pics/comments/x/b/"
    updatedDay := 20000
    updatedSecs := 7200
    title := "again" }

def entryC : Entry :=
  { author := { name := "/u/carol", uri := "https://www.reddit.com/user/carol" }
    category := [("term", "pics")]
    content := "third post"
    fullId := "t1_ghi789"
    link := "https://www.reddit.com/r/pics/comments/x/c/"
    updatedDay := 20001
    updatedSecs := 60
    title := "more" }

/-- C3 counterexample: a payload that is not well-formed XML (and is not an
HTML doctype page) is NOT treated like a zero-entry page: the zero-entry
script retries and succeeds, while the malformed script aborts the process
with a propagating parse error after one request. -/
theorem malformed_not_treated_as_empty :
    queryFeed [.malformedXml, .feedPage [entryA]]
      ≠ queryFeed [.feedPage [], .feedPage [entryA]] := by
  decide

/-- C3 amended: only responses starting with the HTML doctype marker are
treated exactly like a zero-entry page (absorbed by the backoff loop and
retried, with identical subsequent behaviour); any other payload that is
not well-formed XML raises a parse error that propagates out of the
poller as a fatal error. -/
theorem htmlDoctype_absorbed_malformed_fatal :
    (∀ (d : Nat) (rs : List FeedResponse),
      queryFeedLoop d (.htmlDoctype :: rs) = queryFeedLoop d (.feedPage [] :: rs)) ∧
    (∀ (d : Nat) (rs : List FeedResponse),
      queryFeedLoop d (.malformedXml :: rs) = ([d], .parseError)) := by
  constructor
  · intro d rs
    simp [queryFeedLoop]
  · intro d rs
    rfl

theorem min_double_cap (a : Nat) : min (2 * min a 120) 120 = min (2 * a) 120 := by
  omega

/-- The delay trace of the fetch loop on a script of absorbed responses
followed by a non-empty page: request `i` is issued with delay
`min (a * 2 ^ i) 120`. -/
theorem queryFeedLoop_backoff (page : List Entry) (hpage : page ≠ []) :
    ∀ script : List FeedResponse,
      (∀ r ∈ script, r = FeedResponse.htmlDoctype ∨ r = .feedPage []) →
      ∀ a : Nat,
        queryFeedLoop (min a 120) (script ++ [.feedPage page]) =
          ((List.range (script.length + 1)).map fun i => min (a * 2 ^ i) 120,
            .ok page.reverse) := by
  intro script
  induction script with
  | nil =>
    intro _ a
    have hp : page.isEmpty = false := by
      cases page with
      | nil => exact absurd rfl hpage
      | cons x xs => rfl
    simp [queryFeedLoop, hp, List.range_succ, pow_zero, mul_one]
  | cons r script ih =>
    intro h a
    have hr := h r (List.mem_cons_self r script)
    have hrest : ∀ x ∈ script, x = FeedResponse.htmlDoctype ∨ x = .feedPage [] :=
      fun x hx => h x (List.mem_cons_of_mem r hx)
    have key : queryFeedLoop (min (2 * min a 120) 120)
        (script ++ [.feedPage page]) =
        ((List.range (script.length + 1)).map fun i => min (2 * a * 2 ^ i) 120,
          .ok page.reverse) := by
      rw [min_double_cap]
      exact ih hrest (2 * a)
    have hfun : ((fun i => min (a * 2 ^ i) 120) ∘ Nat.succ)
        = fun i => min (2 * a * 2 ^ i) 120 := by
      funext i
      simp only [Function.comp_apply]
      congr 1
      simp only [pow_succ]
      ring
    have hlist : (List.range (script.length + 1 + 1)).map
          (fun i => min (a * 2 ^ i) 120) =
        min a 120 ::
          (List.range (script.length + 1)).map fun i => min (2 * a * 2 ^ i) 120 := by
      rw [List.range_succ_eq_map, List.map_cons, List.map_map, hfun]
      simp only [pow_zero, mul_one]
    rcases hr with hr | hr <;> subst hr
    · simp only [List.cons_append, queryFeedLoop, List.append_eq,
        List.length_cons]
      rw [key, hlist]
    · simp only [List.cons_append, queryFeedLoop, List.isEmpty_nil, if_true,
        List.append_eq, List.length_cons]
      rw [key, hlist]

/-- C5 counterexample: the claim says the delay doubles after every response
that is malformed and the loop keeps retrying, but on a malformed-XML
response (not an HTML doctype page) the loop aborts with a parse error
after a single request issued at the base delay: no doubled retry follows. -/
theorem backoff_halts_on_malformed :
    queryFeed [.malformedXml, .feedPage [entryB]] = ([15], .parseError) ∧
    queryFeed [.malformedXml, .feedPage [entryB]] ≠ ([15, 30], .ok [entryB]) := by
  decide

/-- C5 amended: within one `_query_feed` call the delay starts at the base
value 15, doubles after every absorbed response (HTML doctype page or
zero-entry page) and is capped at 120; request `i` is issued with delay
`min (15 * 2 ^ i) 120`.  Every call starts afresh at the base value, so
after a successful non-empty page the next request is back at 15.  A
malformed-XML response instead aborts the loop with a parse error.  The
pre-request wait is `max 0 (lastRequestTimestamp + delay - now)`, never a
blind sleep of the full delay once time has passed since the last request. -/
theorem backoff_doubling_capped :
    (∀ (page : List Entry) (script : List FeedResponse), page ≠ [] →
      (∀ r ∈ script, r = FeedResponse.htmlDoctype ∨ r = .feedPage []) →
      queryFeed (script ++ [.feedPage page]) =
        ((List.range (script.length + 1)).map fun i => min (15 * 2 ^ i) 120,
          .ok page.reverse)) ∧
    (∀ l now d : Int, l ≤ now → 0 ≤ d →
      waitSeconds (some l) now d = max (l + d - now) 0 ∧
        waitSeconds (some l) now d ≤ d) := by
  constructor
  · intro page script hp hs
    exact queryFeedLoop_backoff page hp script hs 15
  · intro l now d hl hd
    refine ⟨rfl, ?_⟩
    simp only [waitSeconds]
    omega

/-- Witness for C5's amended theorem: an HTML doctype page then an empty
page then a one-entry page gives requests at delays 15, 30, 60. -/
theorem backoff_doubling_capped_witness :
    (([entryA] : List Entry) ≠ []) ∧
    (∀ r ∈ [FeedResponse.htmlDoctype, .feedPage []],
      r = FeedResponse.htmlDoctype ∨ r = .feedPage []) ∧
    queryFeed ([.htmlDoctype, .feedPage []] ++ [.feedPage [entryA]]) =
      ([15, 30, 60], .ok [entryA]) :=
  ⟨by decide, by decide,
    backoff_doubling_capped.1 [entryA] [.htmlDoctype, .feedPage []]
      (by decide) (by decide)⟩

theorem queryFeedLoop_ok_ne_nil :
    ∀ (rs : List FeedResponse) (d : Nat) (entries : List Entry),
      (queryFeedLoop d rs).2 = .ok entries → entries ≠ [] := by
  intro rs
  induction rs with
  | nil =>
    intro d entries h
    simp [queryFeedLoop] at h
  | cons r rs ih =>
    intro d entries h
    cases r with
    | htmlDoctype => exact ih _ _ h
    | malformedXml => simp [queryFeedLoop] at h
    | feedPage es =>
      cases es with
      | nil => exact ih _ _ h
      | cons e es =>
        have h2 : QueryOutcome.ok ((e :: es).reverse) = .ok entries := h
        cases h2
        simp

/-- C10: whenever the fetch loop returns (it only breaks out of the
`while True` after `len(entries) > 0`), the returned list is non-empty, so
`get_last_entry`'s access to `entries[0]['id']` always succeeds. -/
theorem queryFeed_ok_nonempty (rs : List FeedResponse) (ds : List Nat)
    (entries : List Entry) (h : queryFeed rs = (ds, .ok entries)) :
    entries ≠ [] ∧ ∃ fid, getLastEntry rs = some fid := by
  have hne : entries ≠ [] :=
    queryFeedLoop_ok_ne_nil rs 15 entries (congrArg Prod.snd h)
  refine ⟨hne, ?_⟩
  cases entries with
  | nil => exact absurd rfl hne
  | cons e es =>
    refine ⟨e.fullId, ?_⟩
    simp [getLastEntry, h]

/-- Witness for C10 on a one-page script. -/
theorem queryFeed_ok_nonempty_witness :
    queryFeed [.feedPage [entryC]] = ([15], .ok [entryC]) ∧
    (([entryC] : List Entry) ≠ [] ∧
      ∃ fid, getLastEntry [.feedPage [entryC]] = some fid) :=
  ⟨by decide, queryFeed_ok_nonempty [.feedPage [entryC]] [15] [entryC] (by decide)⟩

/-! ### The streaming loop (`XMLProcess.iter_entries`, lines 229-236)

`_query_feed` hands the loop each page already reversed to oldest-first;
here the walker is modelled over the raw newest-first pages of the mock
transport, applying the reversal itself, which is the composite behaviour
the two functions implement.  After each yielded entry the code runs
`self._after_full_id = entry_dict['id']`. -/

/-- The streaming loop over a finite script of raw newest-first pages.
Returns the emission trace — each emitted entry paired with the value
`_after_full_id` holds once that emission step completes — and the final
cursor. -/
def streamPages (afterFullId : String) :
    List (List Entry) → List (Entry × String) × String
  | [] => ([], afterFullId)
  | page :: pages =>
    let st := page.reverse.foldl
      (fun (s : List (Entry × String) × String) e =>
        (s.1 ++ [(e, e.fullId)], e.fullId))
      ([], afterFullId)
    let rest := streamPages st.2 pages
    (st.1 ++ rest.1, rest.2)

theorem getLastD_append {α : Type} (l1 l2 : List α) (c : α) :
    (l1 ++ l2).getLastD c = l2.getLastD (l1.getLastD c) := by
  induction l1 generalizing c with
  | nil => rfl
  | cons x xs ih =>
    rw [List.cons_append, List.getLastD_cons, ih, List.getLastD_cons]

theorem streamPages_foldl (l : List Entry)
    (acc : List (Entry × String)) (c : String) :
    l.foldl (fun (s : List (Entry × String) × String) e =>
        (s.1 ++ [(e, e.fullId)], e.fullId)) (acc, c) =
      (acc ++ l.map fun e => (e, e.fullId), (l.map Entry.fullId).getLastD c) := by
  induction l generalizing acc c with
  | nil => simp
  | cons e es ih =>
    simp only [List.foldl_cons, List.map_cons]
    rw [ih, List.getLastD_cons]
    simp [List.append_assoc]

/-- C1: for every sequence of raw newest-first pages, the walker emits the
entries of each page oldest-first (the concatenation of the reversed
pages, in page order); the cursor recorded after the Nth emission is the
fullId of the Nth emitted entry; and the final cursor is the fullId of
the last emission (or the initial cursor when nothing was emitted). -/
theorem iterEntries_ordering (init : String) (pages : List (List Entry)) :
    (streamPages init pages).1.map Prod.fst = (pages.map List.reverse).flatten ∧
    (streamPages init pages).1.map Prod.snd =
      ((pages.map List.reverse).flatten).map Entry.fullId ∧
    (streamPages init pages).2 =
      (((pages.map List.reverse).flatten).map Entry.fullId).getLastD init := by
  induction pages generalizing init with
  | nil => simp [streamPages]
  | cons page pages ih =>
    obtain ⟨ih1, ih2, ih3⟩ :=
      ih ((page.reverse.map Entry.fullId).getLastD init)
    simp only [streamPages, streamPages_foldl, List.nil_append, List.map_cons,
      List.flatten_cons, List.map_append, List.map_map]
    refine ⟨?_, ?_, ?_⟩
    · rw [ih1]
      simp [Function.comp_def]
    · rw [ih2]
      simp [Function.comp_def]
    · rw [ih3, getLastD_append]


/-! ### Consumer failure (`FeedProcess.run`, lines 187-194, over
`iter_entries`)

`run` is `for entry_dict in self.iter_entries(...): consume(entry_dict)`.
The generator sets `_after_full_id` to an entry's id only when it is
resumed, i.e. after the consumer callback for that entry returned
normally; a raising callback propagates out of the loop with the cursor
still at the previous value. -/

/-- Consumption of one oldest-first emission stream: the consumer runs on
each yielded entry; on success the cursor advances to that entry's id, on
failure the loop aborts.  Returns the cursor value at abort (or end) and
the entry the consumer failed on, if any. -/
def consumeEntries (consumer : Entry → Bool) (afterFullId : String) :
    List Entry → String × Option Entry
  | [] => (afterFullId, none)
  | e :: es =>
    if consumer e then consumeEntries consumer e.fullId es
    else (afterFullId, some e)

/-- C6: if the consumer raises on an entry, the cursor is not advanced past
it: it still holds the fullId of the last successfully processed entry
(or the initial resolved cursor when nothing succeeded yet), so a
restart re-attempts the failed entry. -/
theorem consumer_failure_keeps_cursor (consumer : Entry → Bool)
    (init : String) (pre : List Entry) (e : Entry) (post : List Entry)
    (hpre : ∀ x ∈ pre, consumer x = true) (he : consumer e = false) :
    consumeEntries consumer init (pre ++ e :: post) =
      ((pre.map Entry.fullId).getLastD init, some e) := by
  induction pre generalizing init with
  | nil => simp [consumeEntries, he]
  | cons x xs ih =>
    have hx : consumer x = true := hpre x (List.mem_cons_self x xs)
    have hxs : ∀ y ∈ xs, consumer y = true :=
      fun y hy => hpre y (List.mem_cons_of_mem x hy)
    simp only [List.cons_append, consumeEntries, hx, if_true, List.map_cons,
      List.getLastD_cons]
    exact ih x.fullId hxs

/-- Witness for C6: the consumer succeeds on `entryA` and fails on
`entryB`; the cursor stays at `entryA`'s fullId. -/
theorem consumer_failure_keeps_cursor_witness :
    consumeEntries (fun e => e.fullId == "t1_abc123") "t3_start"
        ([entryA] ++ entryB :: []) =
      (([entryA].map Entry.fullId).getLastD "t3_start", some entryB) :=
  consumer_failure_keeps_cursor (fun e => e.fullId == "t1_abc123")
    "t3_start" [entryA] entryB [] (by decide) (by decide)

/-! ### Durable cursor persistence (C4)

`iter_entries` only updates the in-memory `self._after_full_id` per
emitted entry; the kv_store row is written by `XMLProcess._exit_handler`
(lines 110-124) on a shutdown signal, with an
`INSERT ... ON CONFLICT ... DO UPDATE` upsert. -/

/-- The kv_store table as an association list keyed by the primary key (`key` is the
table's primary key, so at most one row per key exists):
`INSERT ... ON CONFLICT ... DO UPDATE` replaces the matching row when one
exists and appends a new row otherwise. -/
def kvUpsert : List (String × String) → String → String → List (String × String)
  | [], key, value => [(key, value)]
  | row :: rows, key, value =>
    if row.1 == key then (key, value) :: rows
    else row :: kvUpsert rows key value

def kvLookup (store : List (String × String)) (key : String) :
    Option String :=
  (store.find? (fun row => row.1 == key)).map Prod.snd

/-- Model of `self._db_key = f'{self.subreddit}_{self.path}_after_full_id'`. -/
def dbKey (subject path : String) : String :=
  subject ++ "_" ++ path ++ "_after_full_id"

structure ProcState where
  afterFullId : Option String
  store : List (String × String)
deriving Repr, DecidableEq

/-- Effect of one emission step of `iter_entries` on process state: only
the in-memory `_after_full_id` changes. -/
def processEntry (s : ProcState) (e : Entry) : ProcState :=
  { afterFullId := some e.fullId, store := s.store }

/-- Model of `XMLProcess._exit_handler`: on a shutdown signal, upsert the kv_store
row for the stream key when `_after_full_id` is set; otherwise leave the
store untouched. -/
def exitHandler (key : String) (s : ProcState) : ProcState :=
  match s.afterFullId with
  | none => s
  | some v => { afterFullId := some v, store := kvUpsert s.store key v }

theorem kvLookup_kvUpsert (store : List (String × String)) (key v : String) :
    kvLookup (kvUpsert store key v) key = some v := by
  induction store with
  | nil => simp [kvUpsert, kvLookup, List.find?]
  | cons row rows ih =>
    cases hrow : (row.1 == key) with
    | true =>
      simp [kvUpsert, hrow, kvLookup, List.find?]
    | false =>
      simp only [kvUpsert, hrow, Bool.false_eq_true, if_false]
      simp only [kvLookup, List.find?, hrow]
      simpa [kvLookup] using ih

/-- C4 counterexample: processing an entry does not write the durable
cursor row: starting from an empty store, after `entryA` is processed the
row for the stream key still does not hold `entryA`'s fullId. -/
theorem store_not_written_per_item :
    kvLookup (processEntry ⟨none, []⟩ entryA).store (dbKey "pics" "comments")
      ≠ some entryA.fullId := by
  decide

/-- C4 amended: after every emitted entry only the in-memory
`_after_full_id` is updated to that entry's fullId, leaving the kv_store
row untouched; the durable row (key `{subject}_{path}_after_full_id`) is
written by the upsert in the shutdown handler whenever the in-memory
cursor is set, and the handler is a no-op on the store when no cursor was
ever resolved. -/
theorem cursor_memory_per_item_store_on_shutdown (s : ProcState) (e : Entry)
    (subject path : String) :
    (processEntry s e).store = s.store ∧
    (processEntry s e).afterFullId = some e.fullId ∧
    kvLookup (exitHandler (dbKey subject path) (processEntry s e)).store
      (dbKey subject path) = some e.fullId ∧
    exitHandler (dbKey subject path) { afterFullId := none, store := s.store }
      = { afterFullId := none, store := s.store } := by
  refine ⟨rfl, rfl, ?_, rfl⟩
  simp only [processEntry, exitHandler]
  exact kvLookup_kvUpsert s.store (dbKey subject path) e.fullId

/-! ### Comment Counter (`src/modules/comments.py`)

`CommentProcess._get_comment_date` buckets a UTC-normalized timestamp by
calendar day, transitioning at a configured tz-aware cutoff time;
`CommentProcess.run` filters by a lowercased author blacklist before
calling `register_comment`.  Python compares two tz-aware times by
comparing them after subtracting their respective UTC offsets. -/

/-- Python `<` on tz-aware times: seconds-of-day minus UTC offset. -/
def timeLtTz (secs1 : Nat) (off1 : Int) (secs2 : Nat) (off2 : Int) : Bool :=
  decide ((secs1 : Int) - off1 < (secs2 : Int) - off2)

/-- Model of `CommentProcess._get_comment_date`: the entry's calendar day, minus one
day when `updated.timetz() < self.cutoff_time`.  The entry timestamp was
normalized to UTC (offset 0) by `_query_feed`; the cutoff carries its own
configured offset. -/
def getCommentDate (updatedDay : Int) (updatedSecs : Nat)
    (cutoffSecs : Nat) (cutoffOff : Int) : Int :=
  if timeLtTz updatedSecs 0 cutoffSecs cutoffOff then updatedDay - 1
  else updatedDay

/-- C8: the bucket date is the calendar date of the (UTC-normalized)
timestamp, shifted back one day exactly when its time-of-day is strictly
before the cutoff under Python's aware-time comparison; in particular an
entry at 23:59:59 with cutoff 00:00+00:00 buckets to its own day D, and
an entry at 05:00:00 with cutoff 06:00+00:00 buckets to D - 1. -/
theorem comment_date_cutoff_bucketing :
    (∀ (d : Int) (s cs : Nat) (co : Int),
      getCommentDate d s cs co =
        if (s : Int) < (cs : Int) - co then d - 1 else d) ∧
    (∀ d : Int, getCommentDate d 86399 0 0 = d) ∧
    (∀ d : Int, getCommentDate d 18000 21600 0 = d - 1) := by
  refine ⟨fun d s cs co => ?_, fun d => ?_, fun d => ?_⟩
  · simp [getCommentDate, timeLtTz]
  · simp [getCommentDate, timeLtTz]
  · norm_num [getCommentDate, timeLtTz]

/-! ### The counting loop (`CommentProcess.run`, lines 65-80)

The entry dicts of `_query_feed` expose exactly the keys author, category,
content, id, link, updated, title; `run` reads `entry_dict['author_name']`. -/

inductive FeedValue where
  | str (s : String)
  | dict (entries : List (String × String))
  | timeVal (day : Int) (secs : Nat)
deriving Repr, DecidableEq

/-- Key lookup on the dict built for each entry by `_query_feed`
(lines 183-191 of `base.py`). -/
def entryLookup (e : Entry) (key : String) : Option FeedValue :=
  if key = "author" then
    some (.dict [("name", e.author.name), ("uri", e.author.uri)])
  else if key = "category" then some (.dict e.category)
  else if key = "content" then some (.str e.content)
  else if key = "id" then some (.str e.fullId)
  else if key = "link" then some (.str e.link)
  else if key = "updated" then some (.timeVal e.updatedDay e.updatedSecs)
  else if key = "title" then some (.str e.title)
  else none

inductive RunError where
  | keyError (key : String)
deriving Repr, DecidableEq

/-- One iteration of the `for` loop in `CommentProcess.run`:
`author = entry_dict['author_name'].lower()`, then count the entry unless
the author is blacklisted.  `.ok true` means `register_comment` is
called, `.ok false` means the entry is filtered out; a missing dict key is
a Python `KeyError`. -/
def commentRunStep (blacklist : List String) (e : Entry) :
    Except RunError Bool :=
  match entryLookup e "author_name" with
  | none => .error (.keyError "author_name")
  | some (.str s) => .ok (!(blacklist.contains s.toLower))
  | some _ => .error (.keyError "author_name")

/-- C9 (code bug): the loop body reads `entry_dict['author_name']`, a key
`_query_feed` never produces (the author is nested under `'author'`), so
every entry — blacklisted or not — raises `KeyError` before any count is
registered; no entry is ever counted. -/
theorem commentRun_keyError (blacklist : List String) (e : Entry) :
    commentRunStep blacklist e = .error (.keyError "author_name") := rfl

end SubscriptionBot
